import Mathlib

/-!
Verification of the ccundo turn-grouping and turn-undo core.

This development is a shallow embedding of the JavaScript sources:
  src/core/Operation.js      (the Operation record and OperationType)
  src/core/Turn.js           (the Turn record and description generation)
  src/core/TurnManager.js    (the turn store, reverse index and grouping)
  src/core/TurnUndoManager.js (batch undo orchestration)
  bin/ccundo.js              (caller of the cascading undo entry point)

Conventions of the embedding:
- identifiers (operation ids, turn ids) are natural numbers; the JS code uses
  UUID strings, whose only relevant property is freshness, modelled by a
  `nextId` counter in the manager state;
- instants (JS `Date`) are integers (milliseconds since the epoch); an ISO
  string round-trips losslessly at this precision, so serialized instants are
  kept as integers;
- the JS `Map` objects `turns` (turnId to Turn) and `operationToTurn`
  (operationId to turnId) are association lists with `Map.set` semantics
  (replace in place when the key is present, append otherwise);
- `Date.now()` is read from a `clock` field of the state;
- the persisted turns document written by `saveTurns` is carried in the state
  as the `persisted` field, so that durability claims can compare it with the
  in-memory store;
- the undo delegate (`UndoManager.undo`) is an external collaborator; it is a
  parameter `undo : Operation → UndoOutcome` where `UndoOutcome.err` models a
  thrown error and `UndoOutcome.ok` a returned result value.
-/

namespace Ccundo

/-- An Operation record, from src/core/Operation.js. -/
structure Operation where
  id : Nat
  timestamp : Int
  type : String
  data : String
  undone : Bool
  turnId : Option Nat
deriving DecidableEq, Repr

/-- The plain document produced by Operation.prototype.toJSON. -/
structure OperationJSON where
  id : Nat
  timestamp : Int
  type : String
  data : String
  undone : Bool
  turnId : Option Nat
deriving DecidableEq, Repr

/-- The Operation constructor: fresh id, current instant, given type, data and
turnId, undone initialised to false. -/
def Operation.new (freshId : Nat) (now : Int) (type data : String)
    (turnId : Option Nat) : Operation :=
  { id := freshId
    timestamp := now
    type := type
    data := data
    undone := false
    turnId := turnId }

/-- Operation.prototype.toJSON. -/
def Operation.toJSON (op : Operation) : OperationJSON :=
  { id := op.id
    timestamp := op.timestamp
    type := op.type
    data := op.data
    undone := op.undone
    turnId := op.turnId }

/-- Operation.fromJSON: builds a fresh Operation through the constructor (the
fresh id and instant are dummies, both fields are overwritten), then overwrites
id, timestamp and undone from the document. -/
def Operation.fromJSON (json : OperationJSON) : Operation :=
  let op := Operation.new 0 0 json.type json.data json.turnId
  { op with
    id := json.id
    timestamp := json.timestamp
    undone := json.undone || false }

/-- The closed enumeration OperationType from src/core/Operation.js. -/
def validOperationTypes : List String :=
  ["file_create", "file_edit", "file_delete", "file_rename",
   "directory_create", "directory_delete", "bash_command"]

/-- A Turn record, from src/core/Turn.js. -/
structure Turn where
  id : Nat
  timestamp : Int
  description : String
  operations : List Nat
  startTime : Int
  endTime : Option Int
  completed : Bool
deriving DecidableEq, Repr

/-- The plain document produced by Turn.prototype.toJSON. -/
structure TurnJSON where
  id : Nat
  timestamp : Int
  description : String
  operations : List Nat
  startTime : Int
  endTime : Option Int
  completed : Bool
deriving DecidableEq, Repr

/-- The Turn constructor: fresh id, timestamp and startTime at the current
instant, no operations, endTime null, not completed. -/
def Turn.new (freshId : Nat) (now : Int) (description : String) : Turn :=
  { id := freshId
    timestamp := now
    description := description
    operations := []
    startTime := now
    endTime := none
    completed := false }

/-- Turn.prototype.addOperation: push the id unless already present. -/
def Turn.addOperation (t : Turn) (operationId : Nat) : Turn :=
  if t.operations.contains operationId then t
  else { t with operations := t.operations ++ [operationId] }

/-- Turn.prototype.complete: set endTime to the current instant and mark
completed. -/
def Turn.complete (now : Int) (t : Turn) : Turn :=
  { t with endTime := some now, completed := true }

/-- Turn.prototype.getDuration: null while open, else endTime minus
startTime. -/
def Turn.getDuration (t : Turn) : Option Int :=
  match t.endTime with
  | none => none
  | some e => some (e - t.startTime)

/-- Turn.prototype.toJSON. -/
def Turn.toJSON (t : Turn) : TurnJSON :=
  { id := t.id
    timestamp := t.timestamp
    description := t.description
    operations := t.operations
    startTime := t.startTime
    endTime := match t.endTime with
      | some e => some e
      | none => none
    completed := t.completed }

/-- Turn.fromJSON: builds a Turn through the constructor (dummy fresh id and
instant, both overwritten), then overwrites every field from the document.
The document always carries an operations array and a completed flag, so the
JS null-coalescing defaults reduce to the field values. -/
def Turn.fromJSON (json : TurnJSON) : Turn :=
  let t := Turn.new 0 0 json.description
  { t with
    id := json.id
    timestamp := json.timestamp
    operations := json.operations
    startTime := json.startTime
    endTime := match json.endTime with
      | some e => some e
      | none => none
    completed := json.completed || false }

/-- JS String.prototype.startsWith, as a prefix test on the character list. -/
def jsStartsWith (s p : String) : Bool :=
  p.data.isPrefixOf s.data

/-- JS Set iteration order: first occurrences, in insertion order
(the model of spreading a Set built from a list). -/
def dedupFirstAux (seen : List String) : List String → List String
  | [] => []
  | a :: rest =>
    if seen.contains a then dedupFirstAux seen rest
    else a :: dedupFirstAux (a :: seen) rest

/-- The unique elements of a list, keeping first occurrences. -/
def dedupFirst (l : List String) : List String :=
  dedupFirstAux [] l

/-- Turn.generateDescription from src/core/Turn.js: a short phrase computed
from a list of operations. -/
def Turn.generateDescription (operations : List Operation) : String :=
  if operations.isEmpty then "Empty turn"
  else
    let operationTypes := operations.map (fun op => op.type)
    let uniqueTypes := dedupFirst operationTypes
    if uniqueTypes.length = 1 then
      let type := uniqueTypes.headD ""
      let count := operations.length
      if type = "file_create" then
        (if count = 1 then "Created 1 file"
         else "Created " ++ toString count ++ " files")
      else if type = "file_edit" then
        (if count = 1 then "Edited 1 file"
         else "Edited " ++ toString count ++ " files")
      else if type = "file_delete" then
        (if count = 1 then "Deleted 1 file"
         else "Deleted " ++ toString count ++ " files")
      else if type = "bash_command" then
        (if count = 1 then "Ran 1 command"
         else "Ran " ++ toString count ++ " commands")
      else "Performed " ++ toString count ++ " " ++ type ++ " operations"
    else
      let fileOps := (operationTypes.filter (fun t => jsStartsWith t "file_")).length
      let bashOps := (operationTypes.filter (fun t => t == "bash_command")).length
      let parts :=
        (if 0 < fileOps then
          [toString fileOps ++ " file op" ++ (if fileOps = 1 then "" else "s")]
         else [])
        ++
        (if 0 < bashOps then
          [toString bashOps ++ " command" ++ (if bashOps = 1 then "" else "s")]
         else [])
      String.intercalate " + " parts

/-- The TurnManager state: the turn store and reverse index (JS Maps as
association lists), the persisted turns document, the fresh-id counter and the
clock. -/
structure TurnManager where
  turns : List Turn
  operationToTurn : List (Nat × Nat)
  persisted : List TurnJSON
  nextId : Nat
  clock : Int
deriving DecidableEq, Repr

/-- Map.get on the reverse index. -/
def lookupAssoc (l : List (Nat × Nat)) (k : Nat) : Option Nat :=
  Option.map (fun p => p.2) (l.find? (fun p => p.1 == k))

/-- Map.set on the reverse index: replace in place, or append. -/
def setAssoc (l : List (Nat × Nat)) (k v : Nat) : List (Nat × Nat) :=
  if l.any (fun p => p.1 == k) then
    l.map (fun p => if p.1 = k then (k, v) else p)
  else l ++ [(k, v)]

/-- Map.get on the turn store. -/
def getTurn (s : TurnManager) (turnId : Nat) : Option Turn :=
  s.turns.find? (fun t => t.id == turnId)

/-- Map.set on the turn store. -/
def putTurn (l : List Turn) (t : Turn) : List Turn :=
  if l.any (fun u => u.id == t.id) then
    l.map (fun u => if u.id = t.id then t else u)
  else l ++ [t]

/-- Mutation of the turn object stored under `tid` (JS mutates the aliased
object in the Map in place). -/
def mapTurn (l : List Turn) (tid : Nat) (f : Turn → Turn) : List Turn :=
  l.map (fun t => if t.id = tid then f t else t)

/-- TurnManager.prototype.saveTurns: write the serialized store to the
persisted document. -/
def saveTurns (s : TurnManager) : TurnManager :=
  { s with persisted := s.turns.map Turn.toJSON }

/-- TurnManager.prototype.createTurn: construct a Turn, put it in the store,
return it.  It does not call saveTurns. -/
def createTurn (s : TurnManager) (description : String) : Turn × TurnManager :=
  let turn := Turn.new s.nextId s.clock description
  (turn, { s with turns := putTurn s.turns turn, nextId := s.nextId + 1 })

/-- TurnManager.prototype.getTurnForOperation. -/
def getTurnForOperation (s : TurnManager) (operationId : Nat) : Option Nat :=
  lookupAssoc s.operationToTurn operationId

/-- TurnManager.prototype.addOperationToTurn: if the turn exists, push the
operation id onto it and point the reverse index at it; otherwise do nothing.
It does not call saveTurns. -/
def addOperationToTurn (s : TurnManager) (operationId turnId : Nat) : TurnManager :=
  match getTurn s turnId with
  | none => s
  | some _ =>
    { s with
      turns := mapTurn s.turns turnId (fun t => t.addOperation operationId)
      operationToTurn := setAssoc s.operationToTurn operationId turnId }

/-- The store after calling complete() on the turn object held under `tid`. -/
def completeInStore (s : TurnManager) (tid : Nat) : TurnManager :=
  { s with turns := mapTurn s.turns tid (Turn.complete s.clock) }

/-- TurnManager.prototype.completeTurn: complete the turn if present, then
saveTurns. -/
def completeTurn (s : TurnManager) (turnId : Nat) : TurnManager :=
  match getTurn s turnId with
  | none => s
  | some _ => saveTurns (completeInStore s turnId)

/-- The operations of the input that have no existing turn assignment
(the ungrouped ones), in input order. -/
def ungroupedOf (s : TurnManager) (operations : List Operation) : List Operation :=
  operations.filter (fun op => (getTurnForOperation s op.id).isNone)

/-- The ungrouped operations sorted by timestamp ascending (JS Array.sort with
an ascending comparator; mergeSort is the stable model). -/
def sortedOf (s : TurnManager) (operations : List Operation) : List Operation :=
  (ungroupedOf s operations).mergeSort (fun a b => decide (a.timestamp ≤ b.timestamp))

/-- The single left-to-right grouping pass of groupOperationsIntoTurns: keep a
current turn and the previous operation's timestamp; start a new turn when
there is none or the gap exceeds timeGapMs, completing the previous turn at
the boundary; assign each operation to the current turn.  Returns the ids of
the turns created, in creation order, and the final state (with the last turn
completed). -/
def groupPass (G : Int) : TurnManager → List Operation → Option Nat → Option Int →
    List Nat → List Nat × TurnManager
  | s, [], none, _, created => (created, s)
  | s, [], some tid, _, created => (created, completeInStore s tid)
  | s, op :: rest, none, _, created =>
    let pair := createTurn s ""
    let s2 := addOperationToTurn pair.2 op.id pair.1.id
    groupPass G s2 rest (some pair.1.id) (some op.timestamp) (created ++ [pair.1.id])
  | s, op :: rest, some tid, lastOpTime, created =>
    let needNewTurn := match lastOpTime with
      | some tprev => decide (G < op.timestamp - tprev)
      | none => false
    if needNewTurn then
      let s1 := completeInStore s tid
      let pair := createTurn s1 ""
      let s2 := addOperationToTurn pair.2 op.id pair.1.id
      groupPass G s2 rest (some pair.1.id) (some op.timestamp) (created ++ [pair.1.id])
    else
      let s2 := addOperationToTurn s op.id tid
      groupPass G s2 rest (some tid) (some op.timestamp) created

/-- The description step at the end of groupOperationsIntoTurns: for one newly
created turn, recompute its description from the ungrouped operations that are
members of it. -/
def setTurnDescription (s : TurnManager) (tid : Nat)
    (ungroupedOps : List Operation) : TurnManager :=
  match getTurn s tid with
  | none => s
  | some turn =>
    let turnOps := ungroupedOps.filter (fun op => turn.operations.contains op.id)
    { s with
      turns := mapTurn s.turns tid
        (fun t => { t with description := Turn.generateDescription turnOps }) }

/-- TurnManager.prototype.groupOperationsIntoTurns: filter to ungrouped
operations, sort by timestamp, run the grouping pass, generate descriptions
for the created turns, saveTurns, and return exactly the turns created in
this call. -/
def groupOperationsIntoTurns (s : TurnManager) (operations : List Operation)
    (timeGapMs : Int) : List Turn × TurnManager :=
  if operations.isEmpty then ([], s)
  else if (ungroupedOf s operations).isEmpty then ([], s)
  else
    let pair := groupPass timeGapMs s (sortedOf s operations) none none []
    let s3 := pair.1.foldl
      (fun st tid => setTurnDescription st tid (ungroupedOf s operations)) pair.2
    let s4 := saveTurns s3
    (pair.1.filterMap (fun tid => getTurn s4 tid), s4)

/-- One step of removeOperationsFromTurns: detach one operation id from its
turn (deleting the turn when its member list becomes empty) and delete its
reverse-index entry. -/
def removeOne (s : TurnManager) (opId : Nat) : TurnManager :=
  match lookupAssoc s.operationToTurn opId with
  | none => s
  | some turnId =>
    let newTurns := match getTurn s turnId with
      | none => s.turns
      | some turn =>
        let newOps := turn.operations.filter (fun id => id != opId)
        if newOps.isEmpty then s.turns.filter (fun t => t.id != turnId)
        else mapTurn s.turns turnId (fun t => { t with operations := newOps })
    { s with
      turns := newTurns
      operationToTurn := s.operationToTurn.filter (fun p => p.1 != opId) }

/-- TurnManager.prototype.removeOperationsFromTurns: detach each id in the
batch, then saveTurns once. -/
def removeOperationsFromTurns (s : TurnManager) (operationIds : List Nat) :
    TurnManager :=
  saveTurns (operationIds.foldl removeOne s)

/-- The result value returned by the undo delegate. -/
structure UndoResult where
  success : Bool
  message : String
  backupPath : Option String
deriving DecidableEq, Repr

/-- The outcome of one delegate call: a returned result value, or a thrown
error carrying a message. -/
inductive UndoOutcome where
  | ok (r : UndoResult)
  | err (msg : String)
deriving DecidableEq, Repr

/-- One iteration of the batch loop of TurnUndoManager.prototype.undoTurn: a
returned result is recorded as is; a thrown error is caught and recorded as a
failure entry carrying the error message. -/
def applyUndo (undo : Operation → UndoOutcome) (op : Operation) : UndoResult :=
  match undo op with
  | UndoOutcome.ok r => r
  | UndoOutcome.err msg => { success := false, message := msg, backupPath := none }

/-- The structured result of a batch undo.  The error returns of the JS code
carry only success and message; counts and results are empty there. -/
structure UndoTurnResult where
  success : Bool
  message : String
  successCount : Nat
  failCount : Nat
  results : List UndoResult
deriving DecidableEq, Repr

/-- The batch of undoTurn: the session operations that are members of the
turn, sorted by timestamp descending (reverse chronological order). -/
def turnBatch (turn : Turn) (allOperations : List Operation) : List Operation :=
  (allOperations.filter (fun op => turn.operations.contains op.id)).mergeSort
    (fun a b => decide (b.timestamp ≤ a.timestamp))

/-- TurnUndoManager.prototype.undoTurn: resolve the turn, fail when it is
unknown or its batch is empty, otherwise attempt every operation of the batch
(failures recorded, never halting the loop), detach the successfully undone
ids from turn tracking, and return the structured result. -/
def undoTurn (undo : Operation → UndoOutcome) (s : TurnManager) (turnId : Nat)
    (allOperations : List Operation) : UndoTurnResult × TurnManager :=
  match getTurn s turnId with
  | none =>
    ({ success := false
       message := "Turn " ++ toString turnId ++ " not found"
       successCount := 0
       failCount := 0
       results := [] }, s)
  | some turn =>
    let turnOperations := turnBatch turn allOperations
    if turnOperations.isEmpty then
      ({ success := false
         message := "No operations found in this turn"
         successCount := 0
         failCount := 0
         results := [] }, s)
    else
      let results := turnOperations.map (applyUndo undo)
      let successCount := (results.filter (fun r => r.success)).length
      let failCount := (results.filter (fun r => !r.success)).length
      let s1 :=
        if 0 < successCount then
          let successfulOpIds :=
            ((turnOperations.zip results).filter (fun p => p.2.success)).map
              (fun p => p.1.id)
          removeOperationsFromTurns s successfulOpIds
        else s
      ({ success := 0 < successCount
         message := "Turn undo completed: " ++ toString successCount ++
           " successful, " ++ toString failCount ++ " failed"
         successCount := successCount
         failCount := failCount
         results := results }, s1)

/-- Modelled from the spec: the turn set of the cascade of `resolveCascade`
(section 4.4).  The implementation of cascading undo is invoked from
bin/ccundo.js but its source file is not part of the repository snapshot; the
spec defines the cascade of turn T as every stored turn whose startTime is at
least T.startTime, ordered latest-first. -/
def cascadeTurnsOf (s : TurnManager) (t : Turn) : List Turn :=
  (s.turns.filter (fun u => decide (t.startTime ≤ u.startTime))).mergeSort
    (fun a b => decide (b.startTime ≤ a.startTime))

/-- Modelled from the spec: the operation list of the cascade of
`resolveCascade` (section 4.4): the session operations that are members of
some cascaded turn, ordered by timestamp descending. -/
def cascadeOpsOf (s : TurnManager) (t : Turn) (allOperations : List Operation) :
    List Operation :=
  (allOperations.filter
      (fun op => (cascadeTurnsOf s t).any (fun u => u.operations.contains op.id))).mergeSort
    (fun a b => decide (b.timestamp ≤ a.timestamp))

/-- Modelled from the spec: `resolveCascade(turnId)` (section 4.4): none when
the turn id is unresolved, otherwise the cascaded turns latest-first and the
union of their member operations by timestamp descending. -/
def resolveCascade (s : TurnManager) (turnId : Nat)
    (allOperations : List Operation) : Option (List Turn × List Operation) :=
  match getTurn s turnId with
  | none => none
  | some t => some (cascadeTurnsOf s t, cascadeOpsOf s t allOperations)

/-- Modelled from the spec: `undoTurnWithCascading(turnId, allOps)` (section
4.4): the shared batch semantics applied to the full cascade set — NotFound
when the turn id is unresolved, Empty when the resolved list has no
operations, otherwise every resolved operation is attempted in order, the
successfully undone ids are detached from turn tracking, and a structured
result is returned. -/
def undoTurnWithCascading (undo : Operation → UndoOutcome) (s : TurnManager)
    (turnId : Nat) (allOperations : List Operation) :
    UndoTurnResult × TurnManager :=
  match resolveCascade s turnId allOperations with
  | none =>
    ({ success := false
       message := "Turn " ++ toString turnId ++ " not found"
       successCount := 0
       failCount := 0
       results := [] }, s)
  | some pair =>
    let cascadeOps := pair.2
    if cascadeOps.isEmpty then
      ({ success := false
         message := "No operations found in this turn"
         successCount := 0
         failCount := 0
         results := [] }, s)
    else
      let results := cascadeOps.map (applyUndo undo)
      let successCount := (results.filter (fun r => r.success)).length
      let failCount := (results.filter (fun r => !r.success)).length
      let s1 :=
        if 0 < successCount then
          let successfulOpIds :=
            ((cascadeOps.zip results).filter (fun p => p.2.success)).map
              (fun p => p.1.id)
          removeOperationsFromTurns s successfulOpIds
        else s
      ({ success := 0 < successCount
         message := "Turn undo completed: " ++ toString successCount ++
           " successful, " ++ toString failCount ++ " failed"
         successCount := successCount
         failCount := failCount
         results := results }, s1)

/-- The four operation types the mixed-description file bucket counts: exactly
the types carrying the file underscore prefix.  The two directory types are in
neither bucket. -/
def fileMutationTypes : List String :=
  ["file_create", "file_edit", "file_delete", "file_rename"]

/-- The mixed-operations description phrase stated from the amended spec
wording: count the operations whose type is one of the four file mutation
types and the bash commands, and join the non-empty bucket phrases. -/
def specMixedDescription (operations : List Operation) : String :=
  let fileCount := (operations.filter (fun op => fileMutationTypes.contains op.type)).length
  let commandCount := (operations.filter (fun op => op.type == "bash_command")).length
  let parts :=
    (if 0 < fileCount then
      [toString fileCount ++ " file op" ++ (if fileCount = 1 then "" else "s")]
     else [])
    ++
    (if 0 < commandCount then
      [toString commandCount ++ " command" ++ (if commandCount = 1 then "" else "s")]
     else [])
  String.intercalate " + " parts

/-- The state of a fresh TurnManager after init() with no (or a corrupt)
persisted document: empty store, empty reverse index. -/
def emptyState : TurnManager :=
  { turns := [], operationToTurn := [], persisted := [], nextId := 0, clock := 0 }

/-- Helper for concrete session operations. -/
def mkOp (id : Nat) (timestamp : Int) (type : String) : Operation :=
  { id := id, timestamp := timestamp, type := type, data := "",
    undone := false, turnId := none }

/-- The four operations of the grouping example: timestamps 0s, 60s, 120s and
400s, in milliseconds. -/
def opsExample : List Operation :=
  [mkOp 1 0 "file_edit", mkOp 2 60000 "file_edit",
   mkOp 3 120000 "file_edit", mkOp 4 400000 "file_edit"]

/-- A state in which operation 7 was added to turn 0 and then to turn 1. -/
def doubleAddState : TurnManager :=
  let p1 := createTurn emptyState ""
  let s2 := addOperationToTurn p1.2 7 p1.1.id
  let p2 := createTurn s2 ""
  addOperationToTurn p2.2 7 p2.1.id

/-- A state holding exactly one freshly created turn (id 0). -/
def oneTurnState : TurnManager :=
  (createTurn emptyState "").2

/-- An ungrouped session operation with id 7. -/
def opSeven : Operation := mkOp 7 0 "file_edit"

/-- A turn with two member operations, for the batch-undo scenario. -/
def turnW : Turn :=
  { id := 0, timestamp := 0, description := "", operations := [1, 2],
    startTime := 0, endTime := none, completed := false }

/-- A state holding turnW with a consistent reverse index. -/
def stateW : TurnManager :=
  { turns := [turnW], operationToTurn := [(1, 0), (2, 0)], persisted := [],
    nextId := 1, clock := 0 }

/-- The two session operations of turnW, listed newest first. -/
def allOpsW : List Operation :=
  [mkOp 1 10 "file_edit", mkOp 2 5 "file_create"]

/-- A delegate that undoes operation 1 successfully and throws on every other
operation. -/
def undoW : Operation → UndoOutcome := fun op =>
  if op.id = 1 then
    UndoOutcome.ok { success := true, message := "ok", backupPath := none }
  else UndoOutcome.err "boom"

/-- An earlier turn (startTime 10) owning operation 11. -/
def turnX1 : Turn :=
  { id := 1, timestamp := 10, description := "", operations := [11],
    startTime := 10, endTime := some 12, completed := true }

/-- A later turn (startTime 20) owning operation 21. -/
def turnX2 : Turn :=
  { id := 2, timestamp := 20, description := "", operations := [21],
    startTime := 20, endTime := some 22, completed := true }

/-- A state holding the two turns of the cascade scenario, latest first. -/
def stateX : TurnManager :=
  { turns := [turnX2, turnX1], operationToTurn := [(21, 2), (11, 1)],
    persisted := [], nextId := 3, clock := 0 }

/-- The session operations of the cascade scenario, newest first. -/
def allOpsX : List Operation :=
  [mkOp 21 25 "file_edit", mkOp 11 15 "file_create"]

/-- Two ungrouped operations exactly 300000 ms apart. -/
def opGapA : Operation := mkOp 1 0 "file_edit"

/-- The second operation of the exact-gap pair. -/
def opGapB : Operation := mkOp 2 300000 "file_edit"

/-- A directory mutation and a bash command: a mixed-type operation list. -/
def mixedDirBash : List Operation :=
  [mkOp 1 0 "directory_create", mkOp 2 1 "bash_command"]

/-- A file edit and a bash command: a mixed-type operation list. -/
def mixedFileBash : List Operation :=
  [mkOp 1 0 "file_edit", mkOp 2 1 "bash_command"]

/-! ## Reverse-index (association list) lemmas -/

theorem lookupAssoc_setAssoc_self (l : List (Nat × Nat)) (k v : Nat) :
    lookupAssoc (setAssoc l k v) k = some v := by
  unfold setAssoc
  split
  case isTrue h =>
    unfold lookupAssoc
    rw [List.find?_map]
    have hpred : ((fun p : Nat × Nat => p.1 == k) ∘
        (fun p : Nat × Nat => if p.1 = k then (k, v) else p)) =
        (fun p : Nat × Nat => p.1 == k) := by
      funext p
      by_cases hp : p.1 = k <;> simp [hp]
    rw [hpred]
    obtain ⟨a, ha, hpa⟩ := List.any_eq_true.mp h
    have hsome : (l.find? (fun p : Nat × Nat => p.1 == k)).isSome := by
      rw [List.find?_isSome]; exact ⟨a, ha, hpa⟩
    obtain ⟨b, hb⟩ := Option.isSome_iff_exists.mp hsome
    have hbk : b.1 = k := by simpa using List.find?_some hb
    rw [hb]
    simp [hbk]
  case isFalse h =>
    unfold lookupAssoc
    rw [List.find?_append]
    have hnone : l.find? (fun p : Nat × Nat => p.1 == k) = none := by
      rw [List.find?_eq_none]
      intro x hx hpx
      exact h (List.any_eq_true.mpr ⟨x, hx, hpx⟩)
    rw [hnone]
    simp

theorem lookupAssoc_setAssoc_ne (l : List (Nat × Nat)) (k v x : Nat)
    (hx : x ≠ k) : lookupAssoc (setAssoc l k v) x = lookupAssoc l x := by
  unfold setAssoc
  split
  case isTrue h =>
    unfold lookupAssoc
    rw [List.find?_map]
    have hpred : ((fun p : Nat × Nat => p.1 == x) ∘
        (fun p : Nat × Nat => if p.1 = k then (k, v) else p)) =
        (fun p : Nat × Nat => p.1 == x) := by
      funext p
      by_cases hp : p.1 = k <;> simp [hp]
    rw [hpred]
    cases hf : l.find? (fun p : Nat × Nat => p.1 == x) with
    | none => rfl
    | some b =>
      have hbx : b.1 = x := by simpa using List.find?_some hf
      have hbk : ¬ b.1 = k := by rw [hbx]; exact hx
      simp [hbk]
  case isFalse h =>
    unfold lookupAssoc
    rw [List.find?_append]
    cases hf : l.find? (fun p : Nat × Nat => p.1 == x) with
    | none =>
      have : ((k, v).1 == x) = false := by simp [Ne.symm hx]
      simp [this]
    | some b => simp

theorem lookupAssoc_erase_self (l : List (Nat × Nat)) (k : Nat) :
    lookupAssoc (l.filter (fun p => p.1 != k)) k = none := by
  unfold lookupAssoc
  have : (l.filter (fun p => p.1 != k)).find? (fun p : Nat × Nat => p.1 == k) = none := by
    rw [List.find?_eq_none]
    intro x hx
    have := (List.mem_filter.mp hx).2
    simp only [bne_iff_ne, ne_eq] at this
    simp [this]
  rw [this]
  rfl

theorem lookupAssoc_erase_ne (l : List (Nat × Nat)) (k x : Nat) (hx : x ≠ k) :
    lookupAssoc (l.filter (fun p => p.1 != k)) x = lookupAssoc l x := by
  unfold lookupAssoc
  induction l with
  | nil => rfl
  | cons a rest ih =>
    by_cases hak : a.1 = k
    · rw [List.filter_cons, if_neg (by simp [hak]),
        List.find?_cons_of_neg rest (by simp [hak, Ne.symm hx])]
      exact ih
    · rw [List.filter_cons, if_pos (by simp [hak])]
      by_cases hax : a.1 = x
      · rw [List.find?_cons_of_pos _ (by simp [hax]),
          List.find?_cons_of_pos _ (by simp [hax])]
      · rw [List.find?_cons_of_neg _ (by simp [hax]),
          List.find?_cons_of_neg _ (by simp [hax])]
        exact ih

theorem lookupAssoc_mono_setAssoc (l : List (Nat × Nat)) (k v x : Nat)
    (h : (lookupAssoc l x).isSome) : (lookupAssoc (setAssoc l k v) x).isSome := by
  by_cases hx : x = k
  · subst hx; rw [lookupAssoc_setAssoc_self]; rfl
  · rw [lookupAssoc_setAssoc_ne l k v x hx]; exact h

/-! ## Turn-store lemmas -/

theorem Turn.addOperation_id (t : Turn) (opId : Nat) :
    (t.addOperation opId).id = t.id := by
  unfold Turn.addOperation
  split <;> rfl

theorem getTurn_eq (s : TurnManager) (x : Nat) :
    getTurn s x = s.turns.find? (fun t => t.id == x) := rfl

theorem find?_turn_mapTurn (l : List Turn) (tid x : Nat) (f : Turn → Turn)
    (hf : ∀ t, (f t).id = t.id) :
    (mapTurn l tid f).find? (fun t => t.id == x) =
      Option.map (fun t => if t.id = tid then f t else t)
        (l.find? (fun t => t.id == x)) := by
  unfold mapTurn
  rw [List.find?_map]
  have hpred : ((fun t : Turn => t.id == x) ∘
      (fun t : Turn => if t.id = tid then f t else t)) =
      (fun t : Turn => t.id == x) := by
    funext t
    by_cases ht : t.id = tid <;> simp [ht, hf]
  rw [hpred]

theorem find?_turn_putTurn_self (l : List Turn) (t : Turn) :
    (putTurn l t).find? (fun u => u.id == t.id) = some t := by
  unfold putTurn
  split
  case isTrue h =>
    rw [List.find?_map]
    have hpred : ((fun u : Turn => u.id == t.id) ∘
        (fun u : Turn => if u.id = t.id then t else u)) =
        (fun u : Turn => u.id == t.id) := by
      funext u
      by_cases hu : u.id = t.id <;> simp [hu]
    rw [hpred]
    obtain ⟨a, ha, hpa⟩ := List.any_eq_true.mp h
    have hsome : (l.find? (fun u : Turn => u.id == t.id)).isSome := by
      rw [List.find?_isSome]; exact ⟨a, ha, hpa⟩
    obtain ⟨b, hb⟩ := Option.isSome_iff_exists.mp hsome
    have hbt : b.id = t.id := by simpa using List.find?_some hb
    rw [hb]
    simp [hbt]
  case isFalse h =>
    rw [List.find?_append]
    have hnone : l.find? (fun u : Turn => u.id == t.id) = none := by
      rw [List.find?_eq_none]
      intro x hx hpx
      exact h (List.any_eq_true.mpr ⟨x, hx, hpx⟩)
    rw [hnone]
    simp

theorem find?_turn_mapTurn_isSome (l : List Turn) (tid x : Nat) (f : Turn → Turn)
    (hf : ∀ t, (f t).id = t.id)
    (h : (l.find? (fun t => t.id == x)).isSome) :
    ((mapTurn l tid f).find? (fun t => t.id == x)).isSome := by
  rw [find?_turn_mapTurn l tid x f hf]
  cases hg : l.find? (fun t => t.id == x) with
  | none => rw [hg] at h; exact absurd h (by simp)
  | some t => simp

/-! ## State-step frame lemmas -/

theorem operationToTurn_completeInStore (s : TurnManager) (tid : Nat) :
    (completeInStore s tid).operationToTurn = s.operationToTurn := rfl

theorem operationToTurn_saveTurns (s : TurnManager) :
    (saveTurns s).operationToTurn = s.operationToTurn := rfl

theorem operationToTurn_createTurn (s : TurnManager) (d : String) :
    (createTurn s d).2.operationToTurn = s.operationToTurn := rfl

theorem operationToTurn_setTurnDescription (s : TurnManager) (tid : Nat)
    (ops : List Operation) :
    (setTurnDescription s tid ops).operationToTurn = s.operationToTurn := by
  unfold setTurnDescription
  cases getTurn s tid <;> rfl

theorem turns_saveTurns (s : TurnManager) : (saveTurns s).turns = s.turns := rfl

theorem persisted_saveTurns (s : TurnManager) :
    (saveTurns s).persisted = (saveTurns s).turns.map Turn.toJSON := rfl

/-! ## Deduplication membership -/

theorem mem_dedupFirstAux (x : String) (l : List String) : ∀ seen : List String,
    x ∈ dedupFirstAux seen l ↔ (x ∈ l ∧ x ∉ seen) := by
  induction l with
  | nil => intro seen; simp [dedupFirstAux]
  | cons a rest ih =>
    intro seen
    unfold dedupFirstAux
    by_cases h : seen.contains a
    · rw [if_pos h, ih seen]
      have ha : a ∈ seen := by simpa using h
      constructor
      · rintro ⟨hr, hs⟩
        exact ⟨List.mem_cons_of_mem a hr, hs⟩
      · rintro ⟨hm, hs⟩
        rcases List.mem_cons.mp hm with he | hr
        · exact absurd (he ▸ ha) hs
        · exact ⟨hr, hs⟩
    · rw [if_neg h]
      have ha : a ∉ seen := by
        intro hmem
        exact h (by simpa using hmem)
      simp only [List.mem_cons, ih (a :: seen)]
      constructor
      · rintro (he | ⟨hr, hs⟩)
        · exact ⟨Or.inl he, he ▸ ha⟩
        · exact ⟨Or.inr hr, fun hmem => hs (Or.inr hmem)⟩
      · rintro ⟨hm, hs⟩
        rcases hm with he | hr
        · exact Or.inl he
        · by_cases hxa : x = a
          · exact Or.inl hxa
          · exact Or.inr ⟨hr, fun hmem => hmem.elim hxa hs⟩

theorem mem_dedupFirst {x : String} {l : List String} :
    x ∈ dedupFirst l ↔ x ∈ l := by
  unfold dedupFirst
  rw [mem_dedupFirstAux]
  simp

/-! ## Batch-undo support lemmas -/

theorem zip_map_filter_ids (l : List Operation) (f : Operation → UndoResult) :
    ((l.zip (l.map f)).filter (fun p => p.2.success)).map (fun p => p.1.id) =
      (l.filter (fun a => (f a).success)).map (fun a => a.id) := by
  induction l with
  | nil => rfl
  | cons a rest ih =>
    by_cases hp : (f a).success <;> simp [List.filter_cons, hp, ih]

theorem lookupAssoc_filter_key (q : Nat → Bool) (x : Nat) (hq : q x = true)
    (l : List (Nat × Nat)) :
    lookupAssoc (l.filter (fun p => q p.1)) x = lookupAssoc l x := by
  unfold lookupAssoc
  induction l with
  | nil => rfl
  | cons a rest ih =>
    by_cases hqa : q a.1
    · rw [List.filter_cons, if_pos hqa]
      by_cases hax : a.1 = x
      · rw [List.find?_cons_of_pos _ (by simp [hax]),
          List.find?_cons_of_pos _ (by simp [hax])]
      · rw [List.find?_cons_of_neg _ (by simp [hax]),
          List.find?_cons_of_neg _ (by simp [hax])]
        exact ih
    · rw [List.filter_cons, if_neg hqa]
      have hax : ¬ a.1 = x := fun he => hqa (he ▸ hq)
      rw [List.find?_cons_of_neg _ (by simp [hax])]
      exact ih

theorem lookupAssoc_filter_key_none (q : Nat → Bool) (x : Nat) (hq : q x = false)
    (l : List (Nat × Nat)) :
    lookupAssoc (l.filter (fun p => q p.1)) x = none := by
  unfold lookupAssoc
  have hnone : (l.filter (fun p => q p.1)).find? (fun p => p.1 == x) = none := by
    rw [List.find?_eq_none]
    intro p hp hpx
    have hq2 := (List.mem_filter.mp hp).2
    have hpe : p.1 = x := by simpa using hpx
    rw [hpe, hq] at hq2
    exact Bool.false_ne_true hq2
  rw [hnone]
  rfl

theorem operationToTurn_removeOne (s : TurnManager) (opId : Nat) :
    (removeOne s opId).operationToTurn =
      s.operationToTurn.filter (fun p => p.1 != opId) := by
  unfold removeOne
  split
  case h_1 hl =>
    have hf : s.operationToTurn.find? (fun p => p.1 == opId) = none := by
      cases hfind : s.operationToTurn.find? (fun p => p.1 == opId) with
      | none => rfl
      | some q =>
        rw [lookupAssoc, hfind] at hl
        exact absurd hl (by simp)
    rw [List.find?_eq_none] at hf
    have hall : ∀ p ∈ s.operationToTurn, (p.1 != opId) = true := by
      intro p hp
      have := hf p hp
      simpa using this
    exact (List.filter_eq_self.mpr hall).symm
  case h_2 tid hl => rfl

theorem operationToTurn_foldl_removeOne (ids : List Nat) : ∀ s : TurnManager,
    (ids.foldl removeOne s).operationToTurn =
      s.operationToTurn.filter (fun p => !ids.contains p.1) := by
  induction ids with
  | nil =>
    intro s
    rw [List.foldl_nil]
    have hall : ∀ p ∈ s.operationToTurn, (!([] : List Nat).contains p.1) = true := by
      intro p _
      rfl
    exact (List.filter_eq_self.mpr hall).symm
  | cons x rest ih =>
    intro s
    rw [List.foldl_cons, ih (removeOne s x), operationToTurn_removeOne,
      List.filter_filter]
    apply List.filter_congr
    intro p _
    by_cases hx : p.1 = x <;> by_cases hr : rest.contains p.1 <;>
      simp [hx, hr, List.contains_cons]

/-! ## Claim C9: lossless serialization round-trip -/

/-- C9: serialization round-trips losslessly: for every Operation,
fromJSON (toJSON op) equals op on id, timestamp, type, data, undone and
turnId (here: full record equality), and for every Turn, fromJSON (toJSON t)
yields identical id, operation-id list and timestamps (here: full record
equality, which subsumes those fields). -/
theorem c9_serialization_roundtrip :
    (∀ op : Operation, Operation.fromJSON (Operation.toJSON op) = op) ∧
    (∀ t : Turn, Turn.fromJSON (Turn.toJSON t) = t) := by
  constructor
  · intro op
    cases op
    simp [Operation.fromJSON, Operation.toJSON, Operation.new]
  · intro t
    obtain ⟨id, ts, d, ops, st, et, c⟩ := t
    cases et <;> simp [Turn.fromJSON, Turn.toJSON, Turn.new]

/-! ## Claim C10: addOperationToTurn with an unknown turn id is a no-op -/

/-- C10: calling addOperationToTurn with a turnId not present in the store is
a silent no-op: it reports no error and returns the state unchanged (every
turn's operations list and the reverse index included). -/
theorem c10_addOperationToTurn_unknown_turn_noop (s : TurnManager)
    (operationId turnId : Nat) (h : getTurn s turnId = none) :
    addOperationToTurn s operationId turnId = s := by
  unfold addOperationToTurn
  rw [h]

/-- Witness for C10 at a concrete input: the empty store has no turn 5, and
adding operation 1 to turn 5 leaves the state unchanged. -/
theorem c10_witness :
    getTurn emptyState 5 = none ∧ addOperationToTurn emptyState 1 5 = emptyState :=
  ⟨rfl, c10_addOperationToTurn_unknown_turn_noop emptyState 1 5 rfl⟩

/-! ## Claim C3: persistence on state-mutating calls (corrected) -/

/-- C3 is false as stated: createTurn mutates the store without writing the
persisted document, so after it returns the persisted document differs from
the serialized in-memory state; the same holds for addOperationToTurn called
on a state whose persisted document was up to date. -/
theorem c3_counterexample :
    ((createTurn emptyState "").2.persisted ≠
      (createTurn emptyState "").2.turns.map Turn.toJSON) ∧
    ((addOperationToTurn (saveTurns (createTurn emptyState "").2) 5 0).persisted ≠
      (addOperationToTurn (saveTurns (createTurn emptyState "").2) 5 0).turns.map
        Turn.toJSON) := by
  constructor <;> decide

/-- C3 (amended): completeTurn (on an existing turn), groupOperationsIntoTurns
(when it has ungrouped operations to group) and removeOperationsFromTurns
write the full turn state to the persistence port before returning, so after
them the persisted document equals the serialized in-memory state; createTurn
and addOperationToTurn mutate the in-memory state only and do not persist. -/
theorem c3_amended_persistence (s : TurnManager) (operationIds : List Nat)
    (turnId : Nat) (t : Turn) (operations : List Operation) (G : Int)
    (h1 : getTurn s turnId = some t)
    (h2 : ungroupedOf s operations ≠ []) :
    ((removeOperationsFromTurns s operationIds).persisted =
      (removeOperationsFromTurns s operationIds).turns.map Turn.toJSON) ∧
    ((completeTurn s turnId).persisted =
      (completeTurn s turnId).turns.map Turn.toJSON) ∧
    ((groupOperationsIntoTurns s operations G).2.persisted =
      (groupOperationsIntoTurns s operations G).2.turns.map Turn.toJSON) := by
  refine ⟨rfl, ?_, ?_⟩
  · unfold completeTurn
    rw [h1]
    rfl
  · have hops : ¬ operations.isEmpty = true := by
      intro he
      apply h2
      rw [List.isEmpty_iff] at he
      rw [he]
      rfl
    have hung : ¬ (ungroupedOf s operations).isEmpty = true := by
      intro he
      exact h2 (List.isEmpty_iff.mp he)
    unfold groupOperationsIntoTurns
    rw [if_neg hops, if_neg hung]
    rfl

/-- Witness for C3 (amended) at a concrete input: a store holding one turn
(id 0) and the ungrouped operation 7. -/
theorem c3_amended_persistence_witness :
    getTurn oneTurnState 0 = some (Turn.new 0 0 "") ∧
    ungroupedOf oneTurnState [opSeven] ≠ [] ∧
    (((removeOperationsFromTurns oneTurnState [7]).persisted =
      (removeOperationsFromTurns oneTurnState [7]).turns.map Turn.toJSON) ∧
    ((completeTurn oneTurnState 0).persisted =
      (completeTurn oneTurnState 0).turns.map Turn.toJSON) ∧
    ((groupOperationsIntoTurns oneTurnState [opSeven] 300000).2.persisted =
      (groupOperationsIntoTurns oneTurnState [opSeven] 300000).2.turns.map
        Turn.toJSON)) :=
  ⟨rfl, by decide,
    c3_amended_persistence oneTurnState [7] 0 (Turn.new 0 0 "") [opSeven] 300000
      rfl (by decide)⟩

/-! ## Claim C4: single turn membership (corrected) -/

/-- C4 is false as stated: after adding operation 7 to turn 0 and then to
turn 1, the operation is a member of the operations lists of both stored
turns at once (the reverse index points at turn 1 only). -/
theorem c4_counterexample :
    (getTurn doubleAddState 0).map Turn.operations = some [7] ∧
    (getTurn doubleAddState 1).map Turn.operations = some [7] ∧
    getTurnForOperation doubleAddState 7 = some 1 ∧
    (0 : Nat) ≠ 1 := by
  refine ⟨?_, ?_, ?_, by decide⟩ <;> decide

/-- C4 (amended): the reverse index maps each operation id to at most one
turn, and addOperationToTurn(opId, B) on an existing turn B points the
reverse-index entry of opId at B and makes opId a member of B; but it does
not remove opId from the operations list of any other turn, so an operation
re-added to a different turn stays a member of both lists and only the
reverse index is single-valued. -/
theorem c4_amended_reverse_index (s : TurnManager) (opId turnB : Nat)
    (tB : Turn) (h : getTurn s turnB = some tB) :
    getTurnForOperation (addOperationToTurn s opId turnB) opId = some turnB ∧
    (∃ tB2, getTurn (addOperationToTurn s opId turnB) turnB = some tB2 ∧
      opId ∈ tB2.operations) ∧
    (∀ t ∈ s.turns, t.id ≠ turnB → t ∈ (addOperationToTurn s opId turnB).turns) := by
  have hid : tB.id = turnB := by
    have := List.find?_some (getTurn_eq s turnB ▸ h)
    simpa using this
  unfold addOperationToTurn
  rw [h]
  refine ⟨lookupAssoc_setAssoc_self _ _ _, ?_, ?_⟩
  · rw [getTurn_eq]
    simp only
    rw [find?_turn_mapTurn s.turns turnB turnB _
      (fun t => Turn.addOperation_id t opId)]
    rw [getTurn_eq] at h
    rw [h]
    refine ⟨if tB.id = turnB then tB.addOperation opId else tB, rfl, ?_⟩
    rw [if_pos hid]
    unfold Turn.addOperation
    split
    case isTrue hmem =>
      have := List.elem_iff.mp hmem
      simpa using this
    case isFalse hmem => simp
  · intro t ht htne
    show t ∈ mapTurn s.turns turnB (fun u => u.addOperation opId)
    unfold mapTurn
    refine List.mem_map.mpr ⟨t, ht, ?_⟩
    rw [if_neg htne]

/-- Witness for C4 (amended) at a concrete input: adding operation 9 to the
single stored turn 0. -/
theorem c4_amended_reverse_index_witness :
    getTurn oneTurnState 0 = some (Turn.new 0 0 "") ∧
    (getTurnForOperation (addOperationToTurn oneTurnState 9 0) 9 = some 0 ∧
    (∃ tB2, getTurn (addOperationToTurn oneTurnState 9 0) 0 = some tB2 ∧
      9 ∈ tB2.operations) ∧
    (∀ t ∈ oneTurnState.turns, t.id ≠ 0 →
      t ∈ (addOperationToTurn oneTurnState 9 0).turns)) :=
  ⟨rfl, c4_amended_reverse_index oneTurnState 9 0 (Turn.new 0 0 "") rfl⟩

/-! ## Claim C2: the grouping example (corrected) -/

/-- C2 is false as stated: with the 300000 ms (300 s) gap threshold the four
operations at 0 s, 60 s, 120 s and 400 s fall into a single turn, because the
boundary test compares consecutive operations and the largest consecutive gap
is 280 s, not more than 300 s.  The result has one turn, not two. -/
theorem c2_counterexample :
    ((groupOperationsIntoTurns emptyState opsExample 300000).1.map
      (fun t => t.operations) = [[1, 2, 3, 4]]) ∧
    (groupOperationsIntoTurns emptyState opsExample 300000).1.length ≠ 2 := by
  have hu : ungroupedOf emptyState opsExample = opsExample := by decide
  have hs : sortedOf emptyState opsExample = opsExample := by
    unfold sortedOf
    rw [hu]
    exact List.mergeSort_of_sorted (by decide)
  constructor <;>
    · unfold groupOperationsIntoTurns
      rw [if_neg (by decide), if_neg (by decide), hs]
      decide

/-- C2 (amended): grouping the four ungrouped operations at 0 s, 60 s, 120 s
and 400 s with gap threshold 300 s produces exactly one turn containing all
four operations, since each consecutive gap (60 s, 60 s, 280 s) is at most
the threshold; the two-turn outcome of the example ({0,60,120} and {400})
arises for thresholds below 280 s, for instance 200 s. -/
theorem c2_amended_grouping_example :
    ((groupOperationsIntoTurns emptyState opsExample 300000).1.map
      (fun t => t.operations) = [[1, 2, 3, 4]]) ∧
    ((groupOperationsIntoTurns emptyState opsExample 200000).1.map
      (fun t => t.operations) = [[1, 2, 3], [4]]) := by
  have hu : ungroupedOf emptyState opsExample = opsExample := by decide
  have hs : sortedOf emptyState opsExample = opsExample := by
    unfold sortedOf
    rw [hu]
    exact List.mergeSort_of_sorted (by decide)
  constructor <;>
    · unfold groupOperationsIntoTurns
      rw [if_neg (by decide), if_neg (by decide), hs]
      decide

/-! ## Claim C8: mixed-description buckets (corrected) -/

/-- C8 is false as stated: in a mixed list the file-operations bucket counts
only the types carrying the file underscore prefix, so a directory mutation is
counted in neither bucket.  For a directory creation plus a bash command the
code produces "1 command", not the "1 file op + 1 command" the claim
requires. -/
theorem c8_counterexample :
    Turn.generateDescription mixedDirBash = "1 command" ∧
    ("1 command" : String) ≠ "1 file op + 1 command" := by
  constructor <;> decide

/-- C8 (amended): for every non-empty operation list with more than one
distinct type whose types are all valid OperationType values,
generateDescription counts exactly the operations of the four file mutation
types (file_create, file_edit, file_delete, file_rename) in the file
operations bucket — directory_create and directory_delete are counted in
neither bucket — and every bash_command in the commands bucket, and joins the
non-empty bucket phrases with " + ". -/
theorem c8_amended_mixed_buckets (operations : List Operation)
    (h1 : operations ≠ [])
    (h2 : ∃ x ∈ operations, ∃ y ∈ operations, x.type ≠ y.type)
    (h3 : ∀ op ∈ operations, op.type ∈ validOperationTypes) :
    Turn.generateDescription operations = specMixedDescription operations := by
  obtain ⟨x, hx, y, hy, hxy⟩ := h2
  have hxm : x.type ∈ dedupFirst (operations.map (fun op => op.type)) :=
    mem_dedupFirst.mpr (List.mem_map.mpr ⟨x, hx, rfl⟩)
  have hym : y.type ∈ dedupFirst (operations.map (fun op => op.type)) :=
    mem_dedupFirst.mpr (List.mem_map.mpr ⟨y, hy, rfl⟩)
  have hne1 : ¬ (dedupFirst (operations.map (fun op => op.type))).length = 1 := by
    intro hlen
    obtain ⟨a, ha⟩ := List.length_eq_one.mp hlen
    rw [ha] at hxm hym
    exact hxy ((List.mem_singleton.mp hxm).trans (List.mem_singleton.mp hym).symm)
  have hfile : ((operations.map (fun op => op.type)).filter
      (fun t => jsStartsWith t "file_")).length =
      (operations.filter (fun op => fileMutationTypes.contains op.type)).length := by
    rw [List.filter_map, List.length_map]
    congr 1
    apply List.filter_congr
    intro op hop
    have hv := h3 op hop
    show jsStartsWith op.type "file_" = fileMutationTypes.contains op.type
    simp only [validOperationTypes, List.mem_cons, List.mem_singleton,
      List.not_mem_nil, or_false] at hv
    rcases hv with h | h | h | h | h | h | h <;> rw [h] <;> decide
  have hbash : ((operations.map (fun op => op.type)).filter
      (fun t => t == "bash_command")).length =
      (operations.filter (fun op => op.type == "bash_command")).length := by
    rw [List.filter_map, List.length_map]
    rfl
  simp only [Turn.generateDescription, specMixedDescription]
  rw [if_neg (by simp [h1]), if_neg hne1, hfile, hbash]

/-- Witness for C8 (amended) at a concrete input: one file edit plus one bash
command. -/
theorem c8_amended_mixed_buckets_witness :
    mixedFileBash ≠ [] ∧
    (∃ x ∈ mixedFileBash, ∃ y ∈ mixedFileBash, x.type ≠ y.type) ∧
    (∀ op ∈ mixedFileBash, op.type ∈ validOperationTypes) ∧
    Turn.generateDescription mixedFileBash = specMixedDescription mixedFileBash :=
  ⟨by decide, by decide, by decide,
    c8_amended_mixed_buckets mixedFileBash (by decide) (by decide) (by decide)⟩

/-! ## Grouping-pass support lemmas -/

theorem getTurn_createTurn_self (s : TurnManager) (d : String) :
    getTurn (createTurn s d).2 (createTurn s d).1.id = some (createTurn s d).1 :=
  find?_turn_putTurn_self s.turns (Turn.new s.nextId s.clock d)

theorem find?_turn_putTurn_isSome (l : List Turn) (t : Turn) (x : Nat)
    (h : (l.find? (fun u => u.id == x)).isSome) :
    ((putTurn l t).find? (fun u => u.id == x)).isSome := by
  unfold putTurn
  split
  case isTrue hany =>
    rw [List.find?_map]
    have hpred : ((fun u : Turn => u.id == x) ∘
        (fun u : Turn => if u.id = t.id then t else u)) =
        (fun u : Turn => u.id == x) := by
      funext u
      by_cases hu : u.id = t.id <;> simp [hu]
    rw [hpred]
    cases hf : l.find? (fun u => u.id == x) with
    | none => rw [hf] at h; exact absurd h (by simp)
    | some b => simp
  case isFalse hany =>
    rw [List.find?_append]
    cases hf : l.find? (fun u => u.id == x) with
    | none => rw [hf] at h; exact absurd h (by simp)
    | some b => simp

theorem getTurn_isSome_createTurn (s : TurnManager) (d : String) (x : Nat)
    (h : (getTurn s x).isSome) : (getTurn (createTurn s d).2 x).isSome :=
  find?_turn_putTurn_isSome s.turns (Turn.new s.nextId s.clock d) x h

theorem getTurn_isSome_addOperationToTurn (s : TurnManager) (a b x : Nat)
    (h : (getTurn s x).isSome) :
    (getTurn (addOperationToTurn s a b) x).isSome := by
  unfold addOperationToTurn
  cases hg : getTurn s b with
  | none => exact h
  | some t =>
    exact find?_turn_mapTurn_isSome s.turns b x _
      (fun u => Turn.addOperation_id u a) h

theorem getTurn_isSome_completeInStore (s : TurnManager) (tid x : Nat)
    (h : (getTurn s x).isSome) : (getTurn (completeInStore s tid) x).isSome :=
  find?_turn_mapTurn_isSome s.turns tid x _ (fun _ => rfl) h

theorem lookupAssoc_isSome_addOperationToTurn (s : TurnManager) (a b x : Nat)
    (h : (lookupAssoc s.operationToTurn x).isSome) :
    (lookupAssoc (addOperationToTurn s a b).operationToTurn x).isSome := by
  unfold addOperationToTurn
  cases hg : getTurn s b with
  | none => exact h
  | some t => exact lookupAssoc_mono_setAssoc s.operationToTurn a b x h

theorem lookupAssoc_addOperationToTurn_ne (s : TurnManager) (a b x : Nat)
    (hne : x ≠ a) :
    lookupAssoc (addOperationToTurn s a b).operationToTurn x =
      lookupAssoc s.operationToTurn x := by
  unfold addOperationToTurn
  cases hg : getTurn s b with
  | none => rfl
  | some t => exact lookupAssoc_setAssoc_ne s.operationToTurn a b x hne

theorem lookupAssoc_addOperationToTurn_self (s : TurnManager) (a b : Nat)
    (h : (getTurn s b).isSome) :
    lookupAssoc (addOperationToTurn s a b).operationToTurn a = some b := by
  unfold addOperationToTurn
  cases hg : getTurn s b with
  | none => rw [hg] at h; exact absurd h (by simp)
  | some t => exact lookupAssoc_setAssoc_self s.operationToTurn a b

theorem groupPass_lookup_mono (G : Int) (ops : List Operation) :
    ∀ (s : TurnManager) (cur : Option Nat) (lt : Option Int)
      (created : List Nat) (x : Nat),
    (lookupAssoc s.operationToTurn x).isSome →
    (lookupAssoc (groupPass G s ops cur lt created).2.operationToTurn x).isSome := by
  induction ops with
  | nil =>
    intro s cur lt created x h
    cases cur with
    | none => exact h
    | some tid => exact h
  | cons op rest ih =>
    intro s cur lt created x h
    cases cur with
    | none =>
      simp only [groupPass]
      exact ih _ _ _ _ x (lookupAssoc_isSome_addOperationToTurn _ _ _ x h)
    | some tid =>
      cases lt with
      | none =>
        simp only [groupPass]
        rw [if_neg (by decide)]
        exact ih _ _ _ _ x (lookupAssoc_isSome_addOperationToTurn _ _ _ x h)
      | some tprev =>
        by_cases hgap : G < op.timestamp - tprev
        · simp only [groupPass]
          rw [if_pos (by simpa using hgap)]
          exact ih _ _ _ _ x (lookupAssoc_isSome_addOperationToTurn _ _ _ x h)
        · simp only [groupPass]
          rw [if_neg (by simpa using hgap)]
          exact ih _ _ _ _ x (lookupAssoc_isSome_addOperationToTurn _ _ _ x h)

theorem groupPass_lookup_preserve (G : Int) (ops : List Operation) :
    ∀ (s : TurnManager) (cur : Option Nat) (lt : Option Int)
      (created : List Nat) (x : Nat),
    x ∉ ops.map (fun op => op.id) →
    lookupAssoc (groupPass G s ops cur lt created).2.operationToTurn x =
      lookupAssoc s.operationToTurn x := by
  induction ops with
  | nil =>
    intro s cur lt created x _
    cases cur with
    | none => rfl
    | some tid => rfl
  | cons op rest ih =>
    intro s cur lt created x hx
    have hxop : x ≠ op.id := by
      intro he
      exact hx (List.mem_map.mpr ⟨op, List.mem_cons_self op rest, he.symm⟩)
    have hxrest : x ∉ rest.map (fun op => op.id) := by
      intro hmem
      apply hx
      simp only [List.map_cons, List.mem_cons]
      exact Or.inr hmem
    cases cur with
    | none =>
      simp only [groupPass]
      rw [ih _ _ _ _ x hxrest, lookupAssoc_addOperationToTurn_ne _ _ _ x hxop]
      rfl
    | some tid =>
      cases lt with
      | none =>
        simp only [groupPass]
        rw [if_neg (by decide)]
        rw [ih _ _ _ _ x hxrest, lookupAssoc_addOperationToTurn_ne _ _ _ x hxop]
      | some tprev =>
        by_cases hgap : G < op.timestamp - tprev
        · simp only [groupPass]
          rw [if_pos (by simpa using hgap)]
          rw [ih _ _ _ _ x hxrest, lookupAssoc_addOperationToTurn_ne _ _ _ x hxop]
          rfl
        · simp only [groupPass]
          rw [if_neg (by simpa using hgap)]
          rw [ih _ _ _ _ x hxrest, lookupAssoc_addOperationToTurn_ne _ _ _ x hxop]

theorem groupPass_assigns (G : Int) (ops : List Operation) :
    ∀ (s : TurnManager) (cur : Option Nat) (lt : Option Int) (created : List Nat),
    (∀ tid, cur = some tid → (getTurn s tid).isSome) →
    ∀ op0 ∈ ops,
    (lookupAssoc (groupPass G s ops cur lt created).2.operationToTurn op0.id).isSome := by
  induction ops with
  | nil =>
    intro s cur lt created _ op0 hop0
    exact absurd hop0 (List.not_mem_nil op0)
  | cons op rest ih =>
    intro s cur lt created hinv op0 hop0
    rcases List.mem_cons.mp hop0 with he | hr
    · subst he
      cases cur with
      | none =>
        simp only [groupPass]
        have hexist : (getTurn (createTurn s "").2 (createTurn s "").1.id).isSome := by
          rw [getTurn_createTurn_self]; rfl
        apply groupPass_lookup_mono
        rw [lookupAssoc_addOperationToTurn_self _ _ _ hexist]
        rfl
      | some tid =>
        have hT : (getTurn s tid).isSome := hinv tid rfl
        cases lt with
        | none =>
          simp only [groupPass]
          rw [if_neg (by decide)]
          apply groupPass_lookup_mono
          rw [lookupAssoc_addOperationToTurn_self _ _ _ hT]
          rfl
        | some tprev =>
          by_cases hgap : G < op0.timestamp - tprev
          · simp only [groupPass]
            rw [if_pos (by simpa using hgap)]
            have hexist : (getTurn (createTurn (completeInStore s tid) "").2
                (createTurn (completeInStore s tid) "").1.id).isSome := by
              rw [getTurn_createTurn_self]; rfl
            apply groupPass_lookup_mono
            rw [lookupAssoc_addOperationToTurn_self _ _ _ hexist]
            rfl
          · simp only [groupPass]
            rw [if_neg (by simpa using hgap)]
            apply groupPass_lookup_mono
            rw [lookupAssoc_addOperationToTurn_self _ _ _ hT]
            rfl
    · cases cur with
      | none =>
        simp only [groupPass]
        have hexist : (getTurn (createTurn s "").2 (createTurn s "").1.id).isSome := by
          rw [getTurn_createTurn_self]; rfl
        refine ih _ _ _ _ ?_ op0 hr
        intro t ht
        cases ht
        exact getTurn_isSome_addOperationToTurn _ _ _ _ hexist
      | some tid =>
        have hT : (getTurn s tid).isSome := hinv tid rfl
        cases lt with
        | none =>
          simp only [groupPass]
          rw [if_neg (by decide)]
          refine ih _ _ _ _ ?_ op0 hr
          intro t ht
          cases ht
          exact getTurn_isSome_addOperationToTurn _ _ _ _ hT
        | some tprev =>
          by_cases hgap : G < op.timestamp - tprev
          · simp only [groupPass]
            rw [if_pos (by simpa using hgap)]
            have hexist : (getTurn (createTurn (completeInStore s tid) "").2
                (createTurn (completeInStore s tid) "").1.id).isSome := by
              rw [getTurn_createTurn_self]; rfl
            refine ih _ _ _ _ ?_ op0 hr
            intro t ht
            cases ht
            exact getTurn_isSome_addOperationToTurn _ _ _ _ hexist
          · simp only [groupPass]
            rw [if_neg (by simpa using hgap)]
            refine ih _ _ _ _ ?_ op0 hr
            intro t ht
            cases ht
            exact getTurn_isSome_addOperationToTurn _ _ _ _ hT

theorem operationToTurn_descFold (l : List Nat) :
    ∀ (s : TurnManager) (ung : List Operation),
    (l.foldl (fun st tid => setTurnDescription st tid ung) s).operationToTurn =
      s.operationToTurn := by
  induction l with
  | nil => intro s ung; rfl
  | cons x rest ih =>
    intro s ung
    rw [List.foldl_cons, ih (setTurnDescription s x ung) ung,
      operationToTurn_setTurnDescription]

/-! ## Claim C5: partial-failure isolation in undoTurn -/

theorem operationToTurn_removeOperationsFromTurns (s : TurnManager)
    (ids : List Nat) :
    (removeOperationsFromTurns s ids).operationToTurn =
      s.operationToTurn.filter (fun p => !ids.contains p.1) := by
  unfold removeOperationsFromTurns
  rw [operationToTurn_saveTurns, operationToTurn_foldl_removeOne]

/-- C5: for every turn batch processed by undoTurn, a delegate failure (a
returned failure or a thrown error) at any position does not stop later
operations of the batch: the result list carries one delegate outcome per
batch operation, in batch order.  Afterwards exactly the ids of the
operations whose individual undo succeeded are removed from turn tracking,
while every failed operation remains mapped to its turn in the reverse
index. -/
theorem c5_batch_partial_failure (undo : Operation → UndoOutcome)
    (s : TurnManager) (turnId : Nat) (allOps : List Operation) (turn : Turn)
    (h1 : getTurn s turnId = some turn)
    (h2 : allOps.filter (fun op => turn.operations.contains op.id) ≠ [])
    (h3 : ∀ id ∈ turn.operations, lookupAssoc s.operationToTurn id = some turnId)
    (h4 : (allOps.map (fun op => op.id)).Nodup) :
    (undoTurn undo s turnId allOps).1.results =
      (turnBatch turn allOps).map (applyUndo undo) ∧
    (∀ op ∈ turnBatch turn allOps,
      ((applyUndo undo op).success = true →
        lookupAssoc (undoTurn undo s turnId allOps).2.operationToTurn op.id =
          none) ∧
      ((applyUndo undo op).success = false →
        lookupAssoc (undoTurn undo s turnId allOps).2.operationToTurn op.id =
          some turnId)) := by
  have hbne : ¬ (turnBatch turn allOps).isEmpty = true := by
    intro he
    apply h2
    have heq : turnBatch turn allOps = [] := List.isEmpty_iff.mp he
    unfold turnBatch at heq
    have hperm := List.mergeSort_perm
      (allOps.filter (fun op => turn.operations.contains op.id))
      (fun a b => decide (b.timestamp ≤ a.timestamp))
    rw [heq] at hperm
    have hlen := hperm.length_eq
    simp only [List.length_nil] at hlen
    exact List.eq_nil_of_length_eq_zero hlen.symm
  have hBnodup : ((turnBatch turn allOps).map (fun op => op.id)).Nodup := by
    have hsub : ((allOps.filter (fun op => turn.operations.contains op.id)).map
        (fun op => op.id)).Sublist (allOps.map (fun op => op.id)) :=
      List.Sublist.map _ (List.filter_sublist allOps)
    have hfn := List.Nodup.sublist hsub h4
    have hpermB : ((turnBatch turn allOps).map (fun op => op.id)).Perm
        ((allOps.filter (fun op => turn.operations.contains op.id)).map
          (fun op => op.id)) :=
      List.Perm.map _ (List.mergeSort_perm _ _)
    exact hpermB.symm.nodup hfn
  simp only [undoTurn, h1]
  rw [if_neg hbne]
  refine ⟨rfl, ?_⟩
  intro op hop
  have hop' : op ∈ (allOps.filter
      (fun op => turn.operations.contains op.id)).mergeSort
      (fun a b => decide (b.timestamp ≤ a.timestamp)) := hop
  have hopq := (List.mem_filter.mp (List.mem_mergeSort.mp hop')).2
  have hidmem : op.id ∈ turn.operations := by simpa using hopq
  constructor
  · intro hs
    have hpos : 0 < (((turnBatch turn allOps).map (applyUndo undo)).filter
        (fun r => r.success)).length :=
      List.length_pos_of_mem
        (List.mem_filter.mpr ⟨List.mem_map.mpr ⟨op, hop, rfl⟩, hs⟩)
    rw [if_pos hpos, zip_map_filter_ids,
      operationToTurn_removeOperationsFromTurns]
    have hmem : op.id ∈ ((turnBatch turn allOps).filter
        (fun a => (applyUndo undo a).success)).map (fun a => a.id) :=
      List.mem_map.mpr ⟨op, List.mem_filter.mpr ⟨hop, hs⟩, rfl⟩
    exact lookupAssoc_filter_key_none
      (fun k => !(((turnBatch turn allOps).filter
        (fun a => (applyUndo undo a).success)).map (fun a => a.id)).contains k)
      op.id (by simpa using hmem) s.operationToTurn
  · intro hs
    by_cases hpos : 0 < (((turnBatch turn allOps).map (applyUndo undo)).filter
        (fun r => r.success)).length
    · rw [if_pos hpos, zip_map_filter_ids,
        operationToTurn_removeOperationsFromTurns]
      have hnm : op.id ∉ ((turnBatch turn allOps).filter
          (fun a => (applyUndo undo a).success)).map (fun a => a.id) := by
        intro hmem
        obtain ⟨a, haf, haid⟩ := List.mem_map.mp hmem
        obtain ⟨haB, hasucc⟩ := List.mem_filter.mp haf
        have hae : a = op := List.inj_on_of_nodup_map hBnodup haB hop haid
        rw [hae, hs] at hasucc
        exact Bool.false_ne_true hasucc
      rw [lookupAssoc_filter_key
        (fun k => !(((turnBatch turn allOps).filter
          (fun a => (applyUndo undo a).success)).map (fun a => a.id)).contains k)
        op.id (by simpa using hnm)]
      exact h3 op.id hidmem
    · rw [if_neg hpos]
      exact h3 op.id hidmem

/-- Witness for C5 at a concrete input: the turn turnW owns operations 1 and
2; the delegate undoW undoes operation 1 and throws on operation 2. -/
theorem c5_batch_partial_failure_witness :
    getTurn stateW 0 = some turnW ∧
    allOpsW.filter (fun op => turnW.operations.contains op.id) ≠ [] ∧
    (∀ id ∈ turnW.operations, lookupAssoc stateW.operationToTurn id = some 0) ∧
    (allOpsW.map (fun op => op.id)).Nodup ∧
    ((undoTurn undoW stateW 0 allOpsW).1.results =
      (turnBatch turnW allOpsW).map (applyUndo undoW) ∧
    (∀ op ∈ turnBatch turnW allOpsW,
      ((applyUndo undoW op).success = true →
        lookupAssoc (undoTurn undoW stateW 0 allOpsW).2.operationToTurn op.id =
          none) ∧
      ((applyUndo undoW op).success = false →
        lookupAssoc (undoTurn undoW stateW 0 allOpsW).2.operationToTurn op.id =
          some 0))) :=
  ⟨rfl, by decide, by decide, by decide,
    c5_batch_partial_failure undoW stateW 0 allOpsW turnW rfl (by decide)
      (by decide) (by decide)⟩

/-! ## Claim C6: idempotent grouping -/

theorem operationToTurn_group_main (s : TurnManager) (operations : List Operation)
    (G : Int) (he : ¬ operations.isEmpty = true)
    (hu : ¬ (ungroupedOf s operations).isEmpty = true) :
    ((groupOperationsIntoTurns s operations G).2).operationToTurn =
      ((groupPass G s (sortedOf s operations) none none []).2).operationToTurn := by
  unfold groupOperationsIntoTurns
  rw [if_neg he, if_neg hu]
  simp only [operationToTurn_saveTurns, operationToTurn_descFold]

theorem group_of_all_assigned (s2 : TurnManager) (operations : List Operation)
    (G : Int)
    (h : ∀ op ∈ operations, (lookupAssoc s2.operationToTurn op.id).isSome) :
    groupOperationsIntoTurns s2 operations G = ([], s2) := by
  unfold groupOperationsIntoTurns
  by_cases he : operations.isEmpty = true
  · rw [if_pos he]
  · rw [if_neg he]
    have hu : (ungroupedOf s2 operations).isEmpty = true := by
      rw [List.isEmpty_iff]
      unfold ungroupedOf
      apply List.filter_eq_nil_iff.mpr
      intro a ha hn
      have hsome := h a ha
      unfold getTurnForOperation at hn
      cases hlk : lookupAssoc s2.operationToTurn a.id with
      | none => rw [hlk] at hsome; exact absurd hsome (by simp)
      | some v => rw [hlk] at hn; exact absurd hn (by simp)
    rw [if_pos hu]

/-- C6: grouping is idempotent and incremental: running
groupOperationsIntoTurns a second time over the same operation list with the
same gap creates zero additional turns and leaves the state unchanged — every
operation was assigned by the first run (or already had an assignment, which
is never overwritten by grouping), so the second run returns the empty turn
list and the unmodified state. -/
theorem c6_grouping_idempotent (s : TurnManager) (operations : List Operation)
    (G : Int) :
    groupOperationsIntoTurns (groupOperationsIntoTurns s operations G).2
        operations G =
      ([], (groupOperationsIntoTurns s operations G).2) := by
  by_cases he : operations.isEmpty = true
  · have h1 : groupOperationsIntoTurns s operations G = ([], s) := by
      unfold groupOperationsIntoTurns
      rw [if_pos he]
    rw [h1]
    exact h1
  · by_cases hu : (ungroupedOf s operations).isEmpty = true
    · have h1 : groupOperationsIntoTurns s operations G = ([], s) := by
        unfold groupOperationsIntoTurns
        rw [if_neg he, if_pos hu]
      rw [h1]
      exact h1
    · apply group_of_all_assigned
      intro op hop
      rw [operationToTurn_group_main s operations G he hu]
      by_cases hl : (lookupAssoc s.operationToTurn op.id).isSome
      · exact groupPass_lookup_mono G _ s none none [] op.id hl
      · have hmemu : op ∈ ungroupedOf s operations := by
          refine List.mem_filter.mpr ⟨hop, ?_⟩
          unfold getTurnForOperation
          cases hlk : lookupAssoc s.operationToTurn op.id with
          | none => rfl
          | some v => rw [hlk] at hl; exact absurd (by simp) hl
        have hmems : op ∈ sortedOf s operations := by
          unfold sortedOf
          exact List.mem_mergeSort.mpr hmemu
        exact groupPass_assigns G _ s none none []
          (by intro t ht; cases ht) op hmems

/-! ## Claim C7: boundary policy and empty input -/

theorem assigned_pair_tail (G : Int) (a b : Operation) (post : List Operation)
    (sA : TurnManager) (T : Nat) (created : List Nat)
    (hTA : (getTurn sA T).isSome)
    (haA : lookupAssoc sA.operationToTurn a.id = some T)
    (hane : a.id ≠ b.id)
    (hpa : a.id ∉ post.map (fun op => op.id))
    (hpb : b.id ∉ post.map (fun op => op.id))
    (hab : ¬ G < b.timestamp - a.timestamp) :
    lookupAssoc (groupPass G sA (b :: post) (some T) (some a.timestamp)
      created).2.operationToTurn a.id = some T ∧
    lookupAssoc (groupPass G sA (b :: post) (some T) (some a.timestamp)
      created).2.operationToTurn b.id = some T := by
  simp only [groupPass]
  rw [if_neg (by simpa using hab)]
  constructor
  · rw [groupPass_lookup_preserve G post _ _ _ _ a.id hpa,
      lookupAssoc_addOperationToTurn_ne sA b.id T a.id hane]
    exact haA
  · rw [groupPass_lookup_preserve G post _ _ _ _ b.id hpb]
    exact lookupAssoc_addOperationToTurn_self sA b.id T hTA

theorem groupPass_adjacent (G : Int) (a b : Operation)
    (hab : ¬ G < b.timestamp - a.timestamp) (pre : List Operation) :
    ∀ (post : List Operation) (s : TurnManager) (cur : Option Nat)
      (lt : Option Int) (created : List Nat),
    a.id ≠ b.id →
    a.id ∉ post.map (fun op => op.id) →
    b.id ∉ post.map (fun op => op.id) →
    (∀ tid, cur = some tid → (getTurn s tid).isSome) →
    ∃ T,
      lookupAssoc (groupPass G s (pre ++ a :: b :: post) cur lt
        created).2.operationToTurn a.id = some T ∧
      lookupAssoc (groupPass G s (pre ++ a :: b :: post) cur lt
        created).2.operationToTurn b.id = some T := by
  induction pre with
  | nil =>
    intro post s cur lt created hane hpa hpb hinv
    cases cur with
    | none =>
      simp only [List.nil_append, groupPass]
      have hexist : (getTurn (createTurn s "").2 (createTurn s "").1.id).isSome := by
        rw [getTurn_createTurn_self]; rfl
      exact ⟨(createTurn s "").1.id,
        assigned_pair_tail G a b post _ _ _
          (getTurn_isSome_addOperationToTurn _ _ _ _ hexist)
          (lookupAssoc_addOperationToTurn_self _ _ _ hexist)
          hane hpa hpb hab⟩
    | some tid =>
      have hT : (getTurn s tid).isSome := hinv tid rfl
      cases lt with
      | none =>
        simp only [List.nil_append, groupPass]
        rw [if_neg (by decide)]
        exact ⟨tid,
          assigned_pair_tail G a b post _ _ _
            (getTurn_isSome_addOperationToTurn _ _ _ _ hT)
            (lookupAssoc_addOperationToTurn_self _ _ _ hT)
            hane hpa hpb hab⟩
      | some tprev =>
        by_cases hgap : G < a.timestamp - tprev
        · simp only [List.nil_append, groupPass]
          rw [if_pos (by simpa using hgap)]
          have hexist : (getTurn (createTurn (completeInStore s tid) "").2
              (createTurn (completeInStore s tid) "").1.id).isSome := by
            rw [getTurn_createTurn_self]; rfl
          exact ⟨(createTurn (completeInStore s tid) "").1.id,
            assigned_pair_tail G a b post _ _ _
              (getTurn_isSome_addOperationToTurn _ _ _ _ hexist)
              (lookupAssoc_addOperationToTurn_self _ _ _ hexist)
              hane hpa hpb hab⟩
        · simp only [List.nil_append, groupPass]
          rw [if_neg (by simpa using hgap)]
          exact ⟨tid,
            assigned_pair_tail G a b post _ _ _
              (getTurn_isSome_addOperationToTurn _ _ _ _ hT)
              (lookupAssoc_addOperationToTurn_self _ _ _ hT)
              hane hpa hpb hab⟩
  | cons p pre2 ih =>
    intro post s cur lt created hane hpa hpb hinv
    cases cur with
    | none =>
      simp only [List.cons_append, groupPass]
      have hexist : (getTurn (createTurn s "").2 (createTurn s "").1.id).isSome := by
        rw [getTurn_createTurn_self]; rfl
      refine ih post _ _ _ _ hane hpa hpb ?_
      intro t ht
      cases ht
      exact getTurn_isSome_addOperationToTurn _ _ _ _ hexist
    | some tid =>
      have hT : (getTurn s tid).isSome := hinv tid rfl
      cases lt with
      | none =>
        simp only [List.cons_append, groupPass]
        rw [if_neg (by decide)]
        refine ih post _ _ _ _ hane hpa hpb ?_
        intro t ht
        cases ht
        exact getTurn_isSome_addOperationToTurn _ _ _ _ hT
      | some tprev =>
        by_cases hgap : G < p.timestamp - tprev
        · simp only [List.cons_append, groupPass]
          rw [if_pos (by simpa using hgap)]
          have hexist : (getTurn (createTurn (completeInStore s tid) "").2
              (createTurn (completeInStore s tid) "").1.id).isSome := by
            rw [getTurn_createTurn_self]; rfl
          refine ih post _ _ _ _ hane hpa hpb ?_
          intro t ht
          cases ht
          exact getTurn_isSome_addOperationToTurn _ _ _ _ hexist
        · simp only [List.cons_append, groupPass]
          rw [if_neg (by simpa using hgap)]
          refine ih post _ _ _ _ hane hpa hpb ?_
          intro t ht
          cases ht
          exact getTurn_isSome_addOperationToTurn _ _ _ _ hT

/-- C7: an operation whose timestamp is exactly the gap threshold apart from
its (timestamp-sorted) predecessor stays in the predecessor's turn — a new
turn starts only when the gap is strictly greater — and grouping an empty
operation list returns no turns and the unchanged state, not an error. -/
theorem c7_exact_gap_same_turn (s : TurnManager) (operations : List Operation)
    (G : Int) (a b : Operation) (l1 l2 : List Operation)
    (h1 : sortedOf s operations = l1 ++ a :: b :: l2)
    (h2 : b.timestamp - a.timestamp = G)
    (h3 : ((sortedOf s operations).map (fun op => op.id)).Nodup) :
    (∃ T,
      getTurnForOperation (groupOperationsIntoTurns s operations G).2 a.id =
        some T ∧
      getTurnForOperation (groupOperationsIntoTurns s operations G).2 b.id =
        some T) ∧
    groupOperationsIntoTurns s ([] : List Operation) G = ([], s) := by
  constructor
  · have hsne : sortedOf s operations ≠ [] := by
      rw [h1]
      simp
    have hu : ¬ (ungroupedOf s operations).isEmpty = true := by
      intro hue
      apply hsne
      unfold sortedOf
      rw [List.isEmpty_iff.mp hue, List.mergeSort_nil]
    have he : ¬ operations.isEmpty = true := by
      intro hee
      apply hu
      rw [List.isEmpty_iff]
      unfold ungroupedOf
      rw [List.isEmpty_iff.mp hee]
      rfl
    rw [h1] at h3
    simp only [List.map_append, List.map_cons] at h3
    have hnd := (List.nodup_append.mp h3).2.1
    have hane : a.id ≠ b.id := by
      have := (List.nodup_cons.mp hnd).1
      intro hcontra
      exact this (hcontra ▸ List.mem_cons_self b.id _)
    have hpa : a.id ∉ l2.map (fun op => op.id) := by
      have := (List.nodup_cons.mp hnd).1
      intro hcontra
      exact this (List.mem_cons_of_mem _ hcontra)
    have hpb : b.id ∉ l2.map (fun op => op.id) :=
      (List.nodup_cons.mp (List.nodup_cons.mp hnd).2).1
    have hab : ¬ G < b.timestamp - a.timestamp := by
      rw [h2]
      exact lt_irrefl G
    obtain ⟨T, hta, htb⟩ := groupPass_adjacent G a b hab l1 l2 s none none []
      hane hpa hpb (by intro t ht; cases ht)
    rw [← h1] at hta htb
    refine ⟨T, ?_, ?_⟩
    · unfold getTurnForOperation
      rw [operationToTurn_group_main s operations G he hu]
      exact hta
    · unfold getTurnForOperation
      rw [operationToTurn_group_main s operations G he hu]
      exact htb
  · rfl

/-- Witness for C7 at a concrete input: two ungrouped operations exactly
300000 ms apart, grouped with gap threshold 300000 ms. -/
theorem c7_exact_gap_same_turn_witness :
    sortedOf emptyState [opGapA, opGapB] = [] ++ opGapA :: opGapB :: [] ∧
    opGapB.timestamp - opGapA.timestamp = 300000 ∧
    ((sortedOf emptyState [opGapA, opGapB]).map (fun op => op.id)).Nodup ∧
    ((∃ T,
      getTurnForOperation
        (groupOperationsIntoTurns emptyState [opGapA, opGapB] 300000).2
        opGapA.id = some T ∧
      getTurnForOperation
        (groupOperationsIntoTurns emptyState [opGapA, opGapB] 300000).2
        opGapB.id = some T) ∧
    groupOperationsIntoTurns emptyState ([] : List Operation) 300000 =
      ([], emptyState)) := by
  have hsort : sortedOf emptyState [opGapA, opGapB] =
      [] ++ opGapA :: opGapB :: [] := by
    unfold sortedOf
    rw [show ungroupedOf emptyState [opGapA, opGapB] = [opGapA, opGapB] from
      by decide]
    exact List.mergeSort_of_sorted (by decide)
  exact ⟨hsort, by decide, by rw [hsort]; decide,
    c7_exact_gap_same_turn emptyState [opGapA, opGapB] 300000 opGapA opGapB
      [] [] hsort (by decide) (by rw [hsort]; decide)⟩

/-! ## Claim C1: cascade completeness, minimality and ordering -/

/-- C1 (spec-modelled): undoing a stored turn T with cascading processes
exactly the session operations of the turns whose startTime is at least
T.startTime — every stored turn with startTime at least T.startTime is in the
cascade set and every stored turn with an earlier startTime is excluded — and
the resolved operations are processed in descending timestamp order. -/
theorem c1_cascading_undo (undo : Operation → UndoOutcome) (s : TurnManager)
    (turnId : Nat) (allOps : List Operation) (t : Turn)
    (h : getTurn s turnId = some t) :
    resolveCascade s turnId allOps =
      some (cascadeTurnsOf s t, cascadeOpsOf s t allOps) ∧
    (∀ u ∈ cascadeTurnsOf s t, u ∈ s.turns) ∧
    (∀ u ∈ s.turns, (t.startTime ≤ u.startTime ↔ u ∈ cascadeTurnsOf s t)) ∧
    (∀ op, op ∈ cascadeOpsOf s t allOps ↔
      (op ∈ allOps ∧ ∃ u ∈ s.turns, t.startTime ≤ u.startTime ∧
        op.id ∈ u.operations)) ∧
    List.Pairwise (fun a b : Operation => b.timestamp ≤ a.timestamp)
      (cascadeOpsOf s t allOps) ∧
    (undoTurnWithCascading undo s turnId allOps).1.results =
      (cascadeOpsOf s t allOps).map (applyUndo undo) := by
  have h1 : resolveCascade s turnId allOps =
      some (cascadeTurnsOf s t, cascadeOpsOf s t allOps) := by
    unfold resolveCascade
    rw [h]
  refine ⟨h1, ?_, ?_, ?_, ?_, ?_⟩
  · intro u hu
    exact (List.mem_filter.mp (List.mem_mergeSort.mp hu)).1
  · intro u hu
    constructor
    · intro hle
      exact List.mem_mergeSort.mpr (List.mem_filter.mpr ⟨hu, by simpa using hle⟩)
    · intro hmem
      have := (List.mem_filter.mp (List.mem_mergeSort.mp hmem)).2
      simpa using this
  · intro op
    constructor
    · intro hmem
      obtain ⟨hall, hany⟩ := List.mem_filter.mp (List.mem_mergeSort.mp hmem)
      obtain ⟨u, hu, hcont⟩ := List.any_eq_true.mp hany
      obtain ⟨hus, hle⟩ := List.mem_filter.mp (List.mem_mergeSort.mp hu)
      exact ⟨hall, u, hus, by simpa using hle, by simpa using hcont⟩
    · rintro ⟨hall, u, hus, hle, hopmem⟩
      apply List.mem_mergeSort.mpr
      apply List.mem_filter.mpr
      refine ⟨hall, List.any_eq_true.mpr ⟨u, ?_, by simpa using hopmem⟩⟩
      exact List.mem_mergeSort.mpr (List.mem_filter.mpr ⟨hus, by simpa using hle⟩)
  · have hp := @List.sorted_mergeSort Operation
      (fun a b : Operation => decide (b.timestamp ≤ a.timestamp))
      (fun a b c hab hbc => by
        have h1 := of_decide_eq_true hab
        have h2 := of_decide_eq_true hbc
        exact decide_eq_true (le_trans h2 h1))
      (fun a b => by
        rcases le_total b.timestamp a.timestamp with hh | hh <;> simp [hh])
      (allOps.filter
        (fun op => (cascadeTurnsOf s t).any (fun u => u.operations.contains op.id)))
    exact hp.imp (fun hab => of_decide_eq_true hab)
  · simp only [undoTurnWithCascading, h1]
    by_cases he : (cascadeOpsOf s t allOps).isEmpty
    · rw [if_pos he]
      rw [List.isEmpty_iff.mp he]
      rfl
    · rw [if_neg he]

/-- Witness for C1 at a concrete input: the store stateX holds turnX2
(startTime 20) and turnX1 (startTime 10); undoing turnX1 (turn id 1) cascades
over both turns and their operations 21 and 11. -/
theorem c1_cascading_undo_witness :
    getTurn stateX 1 = some turnX1 ∧
    (resolveCascade stateX 1 allOpsX =
      some (cascadeTurnsOf stateX turnX1, cascadeOpsOf stateX turnX1 allOpsX) ∧
    (∀ u ∈ cascadeTurnsOf stateX turnX1, u ∈ stateX.turns) ∧
    (∀ u ∈ stateX.turns,
      (turnX1.startTime ≤ u.startTime ↔ u ∈ cascadeTurnsOf stateX turnX1)) ∧
    (∀ op, op ∈ cascadeOpsOf stateX turnX1 allOpsX ↔
      (op ∈ allOpsX ∧ ∃ u ∈ stateX.turns, turnX1.startTime ≤ u.startTime ∧
        op.id ∈ u.operations)) ∧
    List.Pairwise (fun a b : Operation => b.timestamp ≤ a.timestamp)
      (cascadeOpsOf stateX turnX1 allOpsX) ∧
    (undoTurnWithCascading undoW stateX 1 allOpsX).1.results =
      (cascadeOpsOf stateX turnX1 allOpsX).map (applyUndo undoW)) :=
  ⟨rfl, c1_cascading_undo undoW stateX 1 allOpsX turnX1 rfl⟩

end Ccundo
